import Mathlib

/-
Verification of the NEB pathfinder module (IDPP solver, migration paths,
distinct path finder).

The numeric code is embedded over the rationals.  The only genuinely
non-rational operation of the source is the square root hidden inside
Euclidean norms; it is abstracted as a parameter `sq : ℚ → ℚ` applied to
the sum of squares, so every definition stays executable.  External
collaborators (lattice conversions, distance matrices, the minimum-image
computation, the space group) are parameters of the model; everything
below `IDPPSolver.__init__`, `IDPPSolver.run`, the force computations,
`MigrationPath` and `DistinctPathFinder` is translated from the source.
-/

namespace NEB

/-- Vectors (3-vectors and flattened coordinate vectors) as lists of rationals. -/
abbrev Vec := List ℚ

def vadd (a b : Vec) : Vec := List.zipWith (· + ·) a b

def vsub (a b : Vec) : Vec := List.zipWith (· - ·) a b

def vneg (a : Vec) : Vec := a.map (fun c => -c)

def smul (k : ℚ) (a : Vec) : Vec := a.map (fun c => k * c)

def dot (a b : Vec) : ℚ := (List.zipWith (· * ·) a b).sum

def sumSq (a : Vec) : ℚ := (a.map (fun c => c * c)).sum

/-- Euclidean norm of a vector: `sq` models the square-root function applied
to the sum of squares (`np.linalg.norm`). -/
def vnorm (sq : ℚ → ℚ) (a : Vec) : ℚ := sq (sumSq a)

/-- Computable absolute value on the rationals (`np.abs`). -/
def qabs (x : ℚ) : ℚ := if x < 0 then -x else x

lemma qabs_eq_abs (x : ℚ) : qabs x = |x| := by
  rw [qabs]
  split_ifs with h
  · exact (abs_of_neg h).symm
  · exact (abs_of_nonneg (not_lt.mp h)).symm

/-- A site: chemical species, opaque property bag, Cartesian coordinates and
fractional coordinates. -/
structure Site where
  species : ℕ
  props : ℕ
  cart : Vec
  frac : Vec
  deriving DecidableEq, Inhabited, Repr

/-- A structure (atomic configuration): an ordered list of sites. -/
structure Structure where
  sites : List Site
  deriving DecidableEq, Inhabited, Repr

/-- Target distance matrices from `IDPPSolver.__init__`: for `i` in
`1..nimages`, `structures[0].distance_matrix + i/(nimages+1) *
(structures[-1].distance_matrix - structures[0].distance_matrix)`.
The endpoint distance matrices `D0`, `Dlast` come from the external
geometry collaborator. -/
def targetDists (D0 Dlast : ℕ → ℕ → ℚ) (nimages : ℕ) : List (ℕ → ℕ → ℚ) :=
  (List.range' 1 nimages).map
    (fun (i : ℕ) => fun a b => D0 a b + (i : ℚ) / ((nimages : ℚ) + 1) * (Dlast a b - D0 a b))

/-- Pointwise update of one cell of the translation tensor (an assignment
`translations[a, b, c] = v`). -/
def updT (t : ℕ → ℕ → ℕ → Vec) (a b c : ℕ) (v : Vec) : ℕ → ℕ → ℕ → Vec :=
  fun x y z => if x = a ∧ y = b ∧ z = c then v else t x y z

/-- One body of the inner `j`-loop of `IDPPSolver.__init__`:
`translations[ni-1, i, j] = latt.get_cartesian_coords(img)` and
`translations[ni-1, j, i] = -latt.get_cartesian_coords(img)`.
`v` is the external minimum-image Cartesian vector for this `(ni, i, j)`. -/
def transPair (t : ℕ → ℕ → ℕ → Vec) (ni i j : ℕ) (v : Vec) : ℕ → ℕ → ℕ → Vec :=
  updT (updT t (ni - 1) i j v) (ni - 1) j i (vneg v)

/-- Inner loop `for j in range(i + 1, natoms)` of `IDPPSolver.__init__`.
`imgVec ni i j` abstracts `latt.get_cartesian_coords(latt.get_distance_and_image(
structures[ni][i].frac_coords, structures[ni][j].frac_coords)[1])`. -/
def fillInner (imgVec : ℕ → ℕ → ℕ → Vec) (natoms ni i : ℕ)
    (t : ℕ → ℕ → ℕ → Vec) : ℕ → ℕ → ℕ → Vec :=
  (List.range' (i + 1) (natoms - (i + 1))).foldl
    (fun t' j => transPair t' ni i j (imgVec ni i j)) t

/-- The translation tensor built by `IDPPSolver.__init__`: zero-initialised,
then filled over `itertools.product(range(nimages + 2), range(natoms))` with
the guard `if ni not in [0, nimages + 1]`. -/
def fillTranslations (imgVec : ℕ → ℕ → ℕ → Vec) (nimages natoms : ℕ) :
    ℕ → ℕ → ℕ → Vec :=
  (List.product (List.range (nimages + 2)) (List.range natoms)).foldl
    (fun t p =>
      if p.1 = 0 ∨ p.1 = nimages + 1 then t
      else fillInner imgVec natoms p.1 p.2 t)
    (fun _ _ _ => [0, 0, 0])

/-- The solver state stored by `IDPPSolver.__init__` (array shapes
`nimages`/`natoms` are carried explicitly). -/
structure Solver where
  nimages : ℕ
  natoms : ℕ
  init_coords : ℕ → ℕ → Vec
  translations : ℕ → ℕ → ℕ → Vec
  weights : ℕ → ℕ → ℕ → ℚ
  target_dists : ℕ → ℕ → ℕ → ℚ
  structures : List Structure

/-- `IDPPSolver.__init__` translated from the source.  External collaborators:
`cart` is `latt.get_cartesian_coords`, `imgOf` is the minimum-image lattice
translation `latt.get_distance_and_image(fa, fb)[1]`, and `dmat` is the
`distance_matrix` of a structure. -/
def mkSolver (cart : Vec → Vec) (imgOf : Vec → Vec → Vec)
    (dmat : Structure → ℕ → ℕ → ℚ) (structures : List Structure) : Solver :=
  let natoms := (structures.getD 0 default).sites.length
  let nimages := structures.length - 2
  let D0 := dmat (structures.getD 0 default)
  let Dlast := dmat (structures.getD (structures.length - 1) default)
  let tds := targetDists D0 Dlast nimages
  let tdist : ℕ → ℕ → ℕ → ℚ := fun ni i j => tds.getD ni (fun _ _ => 0) i j
  let avg : ℕ → ℕ → ℕ → ℚ := fun ni i j =>
    (tdist ni i j + dmat (structures.getD (ni + 1) default) i j) / 2
  let siteFrac : ℕ → ℕ → Vec := fun ni i =>
    ((structures.getD ni default).sites.getD i default).frac
  { nimages := nimages
    natoms := natoms
    init_coords := fun ni i => cart (siteFrac ni i)
    translations := fillTranslations
      (fun ni i j => cart (imgOf (siteFrac ni i) (siteFrac ni j))) nimages natoms
    weights := fun ni i j =>
      1 / ((avg ni i j) ^ 4 + (if i = j then (1 : ℚ) / 10 ^ 8 else 0))
    target_dists := tdist
    structures := structures }

/-- `IDPPSolver.get_unit_vector`: `vec / np.linalg.norm(vec)`, with no guard
against a zero norm (division by zero is the field's junk value here). -/
def getUnitVector (sq : ℚ → ℚ) (v : Vec) : Vec :=
  v.map (fun c => c / vnorm sq v)

/-- Sum of rationals `f 0 + ... + f (n-1)`. -/
def qsum (n : ℕ) (f : ℕ → ℚ) : ℚ := ((List.range n).map f).sum

/-- Sum of 3-vectors `f 0 + ... + f (n-1)` (the row-wise `np.dot(aux[i], vec[i])`). -/
def vecSum (n : ℕ) (f : ℕ → Vec) : Vec :=
  (List.range n).foldl (fun acc j => vadd acc (f j)) [0, 0, 0]

/-- Objective value and gradient ("true force") for one interior image, from
`IDPPSolver._get_funcs_and_forces`. -/
def imageFuncForce (sq : ℚ → ℚ) (S : Solver) (x : ℕ → ℕ → Vec) (ni : ℕ) :
    ℚ × List Vec :=
  let vec : ℕ → ℕ → Vec := fun i j =>
    vsub (vsub (x (ni + 1) i) (x (ni + 1) j)) (S.translations ni i j)
  let trial : ℕ → ℕ → ℚ := fun i j => vnorm sq (vec i j)
  let aux : ℕ → ℕ → ℚ := fun i j =>
    -2 * (trial i j - S.target_dists ni i j) * S.weights ni i j /
      (trial i j + (if i = j then 1 else 0))
  let func := (1 / 2 : ℚ) * qsum S.natoms (fun i => qsum S.natoms (fun j =>
    (trial i j - S.target_dists ni i j) ^ 2 * S.weights ni i j))
  let grad := (List.range S.natoms).map (fun i =>
    vecSum S.natoms (fun j => smul (aux i j) (vec i j)))
  (func, grad)

/-- `IDPPSolver._get_funcs_and_forces`: objective values and true forces for
all interior images. -/
def getFuncsAndForces (sq : ℚ → ℚ) (S : Solver) (x : ℕ → ℕ → Vec) :
    List ℚ × List (List Vec) :=
  ((List.range S.nimages).map (imageFuncForce sq S x)).unzip

/-- Flattened difference of two image coordinate blocks,
`(x[a] - x[b]).flatten()`. -/
def flatDiff (x : ℕ → ℕ → Vec) (natoms a b : ℕ) : Vec :=
  ((List.range natoms).map (fun i => vsub (x a i) (x b i))).flatten

/-- The un-normalised local tangent
`get_unit_vector(vec1) + get_unit_vector(vec2)` at interior image `ni`. -/
def tangentRaw (sq : ℚ → ℚ) (x : ℕ → ℕ → Vec) (natoms ni : ℕ) : Vec :=
  vadd (getUnitVector sq (flatDiff x natoms (ni + 1) ni))
    (getUnitVector sq (flatDiff x natoms ni (ni - 1)))

/-- The local tangent of `IDPPSolver._get_total_forces`:
`get_unit_vector(get_unit_vector(vec1) + get_unit_vector(vec2))`. -/
def tangent (sq : ℚ → ℚ) (x : ℕ → ℕ → Vec) (natoms ni : ℕ) : Vec :=
  getUnitVector sq (tangentRaw sq x natoms ni)

/-- `reshape(natoms, 3)` of a flat vector: split into consecutive 3-vectors. -/
def chunk3 : List ℚ → List Vec
  | a :: b :: c :: rest => [a, b, c] :: chunk3 rest
  | [] => []
  | rest => [rest]

/-- `IDPPSolver._get_total_forces`: spring force along the tangent plus the
true force with its tangent-projected component removed, per interior image. -/
def getTotalForces (sq : ℚ → ℚ) (S : Solver) (x : ℕ → ℕ → Vec)
    (trueForces : List (List Vec)) (springConst : ℚ) : List (List Vec) :=
  (List.range' 1 S.nimages).map (fun ni =>
    let vec1 := flatDiff x S.natoms (ni + 1) ni
    let vec2 := flatDiff x S.natoms ni (ni - 1)
    let tg := tangent sq x S.natoms ni
    let springForce := smul (springConst * (vnorm sq vec1 - vnorm sq vec2)) tg
    let ft := (trueForces.getD (ni - 1) []).flatten
    List.zipWith vadd (trueForces.getD (ni - 1) [])
      (chunk3 (vsub springForce (smul (dot ft tg) tg))))

/-- `np.sign`. -/
def rsign (x : ℚ) : ℚ := if 0 < x then 1 else if x < 0 then -1 else 0

/-- The clamp `np.where(np.abs(d) > max_disp, np.sign(d) * max_disp, d)`
applied to one displacement component. -/
def npClip (maxDisp d : ℚ) : ℚ :=
  if qabs d > maxDisp then rsign d * maxDisp else d

/-- Parameters of `IDPPSolver.run`. -/
structure RunParams where
  maxiter : ℕ
  tol : ℚ
  gtol : ℚ
  step_size : ℚ
  max_disp : ℚ
  spring_const : ℚ

/-- One displacement component: `step_size` times a total-force component,
then clamped (`disp_mat` of `IDPPSolver.run`). -/
def clipDisp (p : RunParams) (c : ℚ) : ℚ := npClip p.max_disp (p.step_size * c)

/-- The moving-site index list of `IDPPSolver.run`: all sites when no species
filter is given, else the indices of the first structure's sites whose species
is in the filter. -/
def indicesOf (S : Solver) (species : Option (List ℕ)) : List ℕ :=
  match species with
  | none => List.range (S.structures.getD 0 default).sites.length
  | some sps =>
    (((S.structures.getD 0 default).sites.enum.filter
      (fun pr => decide (pr.2.species ∈ sps))).map Prod.fst)

/-- Iteration state of the minimization loop: current coordinates and the
objective values of the previous iteration (`old_funcs`). -/
abbrev RState := (ℕ → ℕ → Vec) × List ℚ

/-- One iteration body of `IDPPSolver.run`: compute forces, clamp the scaled
displacements, add them to the interior rows at the moving indices, and pass
the fresh objective values on as `old_funcs`. -/
def runStep (sq : ℚ → ℚ) (S : Solver) (indices : List ℕ) (p : RunParams)
    (st : RState) : RState :=
  let fs := getFuncsAndForces sq S st.1
  let totForces := getTotalForces sq S st.1 fs.2 p.spring_const
  (fun ni i =>
    if 1 ≤ ni ∧ ni ≤ S.nimages ∧ i ∈ indices then
      vadd (st.1 ni i) (((totForces.getD (ni - 1) []).getD i []).map (clipDisp p))
    else st.1 ni i,
   fs.1)

/-- The convergence test of `IDPPSolver.run`:
`np.sum(np.abs(old_funcs - funcs)) < tol and
np.abs(tot_forces[:, indices, :]).max() < gtol`, evaluated on the state at the
start of the iteration. -/
def convTest (sq : ℚ → ℚ) (S : Solver) (indices : List ℕ) (p : RunParams)
    (st : RState) : Bool :=
  let funcs := (getFuncsAndForces sq S st.1).1
  let totForces := getTotalForces sq S st.1 (getFuncsAndForces sq S st.1).2 p.spring_const
  let maxForce := ((List.range S.nimages).flatMap (fun ni =>
    indices.flatMap (fun i =>
      ((totForces.getD ni []).getD i []).map (fun c => qabs c)))).foldl max 0
  let totRes := (List.zipWith (fun a b => qabs (a - b)) st.2 funcs).sum
  decide (totRes < p.tol) && decide (maxForce < p.gtol)

/-- The `for n in range(maxiter)` loop of `IDPPSolver.run`.  The returned
`Bool` is `true` when the loop exhausted its budget without the convergence
break, i.e. when the `for`/`else` branch emits the convergence warning. -/
def runLoop (sq : ℚ → ℚ) (S : Solver) (indices : List ℕ) (p : RunParams) :
    ℕ → RState → RState × Bool
  | 0, st => (st, true)
  | Nat.succ k, st =>
    let st' := runStep sq S indices p st
    if convTest sq S indices p st then (st', false)
    else runLoop sq S indices p k st'

/-- The state after `n` iteration bodies, starting from the initial
coordinates and `old_funcs = np.zeros((nimages,))`. -/
def stateAt (sq : ℚ → ℚ) (S : Solver) (indices : List ℕ) (p : RunParams)
    (n : ℕ) : RState :=
  (runStep sq S indices p)^[n] (S.init_coords, List.replicate S.nimages 0)

/-- Rebuilding of the returned chain at the end of `IDPPSolver.run`:
the first input structure, then one rebuilt structure per interior image
(`PeriodicSite(site.species_and_occu, coords=cart_coords,
coords_are_cartesian=True, properties=site.properties)`), then the last input
structure.  `fracOf` is the external Cartesian-to-fractional conversion. -/
def newSite (fracOf : Vec → Vec) (site : Site) (c : Vec) : Site :=
  { species := site.species
    props := site.props
    cart := c
    frac := fracOf c }

def buildStructures (fracOf : Vec → Vec) (S : Solver) (coords : ℕ → ℕ → Vec) :
    List Structure :=
  [S.structures.getD 0 default] ++
  (List.range S.nimages).map (fun ni =>
    { sites := List.zipWith (newSite fracOf)
        (S.structures.getD (ni + 1) default).sites
        ((List.range S.natoms).map (fun i => coords (ni + 1) i)) }) ++
  [S.structures.getD (S.structures.length - 1) default]

def speciesErr : String := "The given species are not in the system!"

/-- `IDPPSolver.run`: the species filter is resolved first (raising on an
empty match), then the minimization loop runs, then the chain is rebuilt.
The `Bool` of the result records whether the non-convergence warning fired. -/
def run (sq : ℚ → ℚ) (fracOf : Vec → Vec) (S : Solver) (p : RunParams)
    (species : Option (List ℕ)) : Except String (List Structure × Bool) :=
  let indices := indicesOf S species
  match species with
  | none =>
    let (st, warned) := runLoop sq S indices p p.maxiter
      (S.init_coords, List.replicate S.nimages 0)
    .ok (buildStructures fracOf S st.1, warned)
  | some _ =>
    if indices.length = 0 then .error speciesErr
    else
      let (st, warned) := runLoop sq S indices p p.maxiter
        (S.init_coords, List.replicate S.nimages 0)
      .ok (buildStructures fracOf S st.1, warned)

/-- Guarded unit vector: `none` exactly when the divisor
`np.linalg.norm(vec)` of `get_unit_vector` is zero. -/
def unitSafe (sq : ℚ → ℚ) (v : Vec) : Option Vec :=
  if vnorm sq v = 0 then none else some (getUnitVector sq v)

/-- Guarded tangent computation: performs the three `get_unit_vector`
normalizations of `_get_total_forces`, failing on any zero divisor. -/
def tangentSafe (sq : ℚ → ℚ) (x : ℕ → ℕ → Vec) (natoms ni : ℕ) : Option Vec :=
  match unitSafe sq (flatDiff x natoms (ni + 1) ni),
        unitSafe sq (flatDiff x natoms ni (ni - 1)) with
  | some u1, some u2 => unitSafe sq (vadd u1 u2)
  | _, _ => none

lemma vneg_vneg (v : Vec) : vneg (vneg v) = v := by
  induction v with
  | nil => rfl
  | cons a v ih => simp [vneg] at ih ⊢

lemma vneg_zero3 : vneg [0, 0, 0] = [0, 0, 0] := by
  simp [vneg]

/-- The invariant of the translation tensor: zero diagonal blocks and
antisymmetry in the two site indices. -/
def TransOK (t : ℕ → ℕ → ℕ → Vec) : Prop :=
  (∀ n i, t n i i = [0, 0, 0]) ∧ (∀ n i j, t n i j = vneg (t n j i))

lemma transOK_transPair {t : ℕ → ℕ → ℕ → Vec} {ni i j : ℕ} {v : Vec}
    (hij : i ≠ j) (h : TransOK t) : TransOK (transPair t ni i j v) := by
  obtain ⟨hd, ha⟩ := h
  constructor
  · intro n a
    simp only [transPair, updT]
    have c1 : ¬(n = ni - 1 ∧ a = j ∧ a = i) := fun hc => hij (hc.2.2.symm.trans hc.2.1)
    have c2 : ¬(n = ni - 1 ∧ a = i ∧ a = j) := fun hc => hij (hc.2.1.symm.trans hc.2.2)
    rw [if_neg c1, if_neg c2]
    exact hd n a
  · intro n a b
    simp only [transPair, updT]
    by_cases c1 : n = ni - 1 ∧ a = j ∧ b = i
    · rw [if_pos c1]
      have c3 : ¬(n = ni - 1 ∧ b = j ∧ a = i) := fun hc => hij (c1.2.2.symm.trans hc.2.1)
      have c4 : n = ni - 1 ∧ b = i ∧ a = j := ⟨c1.1, c1.2.2, c1.2.1⟩
      rw [if_neg c3, if_pos c4]
    · rw [if_neg c1]
      by_cases c2 : n = ni - 1 ∧ a = i ∧ b = j
      · rw [if_pos c2]
        have c3 : n = ni - 1 ∧ b = j ∧ a = i := ⟨c2.1, c2.2.2, c2.2.1⟩
        rw [if_pos c3, vneg_vneg]
      · rw [if_neg c2]
        have c3 : ¬(n = ni - 1 ∧ b = j ∧ a = i) := fun hc => c2 ⟨hc.1, hc.2.2, hc.2.1⟩
        have c4 : ¬(n = ni - 1 ∧ b = i ∧ a = j) := fun hc => c1 ⟨hc.1, hc.2.2, hc.2.1⟩
        rw [if_neg c3, if_neg c4]
        exact ha n a b

lemma transOK_foldl {α : Type} {f : (ℕ → ℕ → ℕ → Vec) → α → (ℕ → ℕ → ℕ → Vec)}
    (hf : ∀ t p, TransOK t → TransOK (f t p)) :
    ∀ (l : List α) (t : ℕ → ℕ → ℕ → Vec), TransOK t → TransOK (l.foldl f t) := by
  intro l
  induction l with
  | nil => intro t h; exact h
  | cons p l ih => intro t h; exact ih (f t p) (hf t p h)

lemma transOK_fillInner {imgVec : ℕ → ℕ → ℕ → Vec} {natoms ni i : ℕ}
    {t : ℕ → ℕ → ℕ → Vec} (h : TransOK t) : TransOK (fillInner imgVec natoms ni i t) := by
  unfold fillInner
  have : ∀ (l : List ℕ) (t : ℕ → ℕ → ℕ → Vec), (∀ j ∈ l, i ≠ j) → TransOK t →
      TransOK (l.foldl (fun t' j => transPair t' ni i j (imgVec ni i j)) t) := by
    intro l
    induction l with
    | nil => intro t _ h; exact h
    | cons j l ih =>
      intro t hl h
      exact ih _ (fun j' hj' => hl j' (List.mem_cons_of_mem _ hj'))
        (transOK_transPair (hl j (List.mem_cons_self _ _)) h)
  refine this _ t (fun j hj => ?_) h
  have := List.mem_range'_1.mp hj
  omega

lemma transOK_fillTranslations (imgVec : ℕ → ℕ → ℕ → Vec) (nimages natoms : ℕ) :
    TransOK (fillTranslations imgVec nimages natoms) := by
  unfold fillTranslations
  apply transOK_foldl
  · intro t p h
    dsimp only
    split_ifs with hg
    · exact h
    · exact transOK_fillInner h
  · exact ⟨fun n i => rfl, fun n i j => vneg_zero3.symm⟩

/-- C10: the translation tensor established by the solver's construction has
zero diagonal blocks (never assigned, keeping the zero initialization) and is
antisymmetric: `translations[ni, j, i] = -translations[ni, i, j]` for all
image and site indices. -/
theorem claim_C10 (cart : Vec → Vec) (imgOf : Vec → Vec → Vec)
    (dmat : Structure → ℕ → ℕ → ℚ) (structures : List Structure) :
    (∀ ni i, (mkSolver cart imgOf dmat structures).translations ni i i = [0, 0, 0]) ∧
    (∀ ni i j, (mkSolver cart imgOf dmat structures).translations ni j i =
      vneg ((mkSolver cart imgOf dmat structures).translations ni i j)) := by
  have h := transOK_fillTranslations
    (fun ni i j => cart (imgOf
      (((structures.getD ni default).sites.getD i default).frac)
      (((structures.getD ni default).sites.getD j default).frac)))
    (structures.length - 2) ((structures.getD 0 default).sites.length)
  exact ⟨h.1, fun ni i j => h.2 ni j i⟩

lemma getElem?_range'_one : ∀ (s n k : ℕ), k < n → (List.range' s n)[k]? = some (s + k) := by
  intro s n
  induction n generalizing s with
  | zero => intro k hk; omega
  | succ n ih =>
    intro k hk
    cases k with
    | zero => simp [List.range']
    | succ k =>
      have h2 := ih (s + 1) k (by omega)
      have h3 : (List.range' s (n + 1))[k + 1]? = (List.range' (s + 1) n)[k]? := by
        simp [List.range']
      rw [h3, h2]
      congr 1
      omega

lemma targetDists_getElem? (D0 Dlast : ℕ → ℕ → ℚ) (nimages k : ℕ) (hk : k < nimages) :
    (targetDists D0 Dlast nimages)[k]? =
      some (fun a b => D0 a b +
        (((1 + k : ℕ)) : ℚ) / ((nimages : ℚ) + 1) * (Dlast a b - D0 a b)) := by
  unfold targetDists
  rw [List.getElem?_map, getElem?_range'_one 1 nimages k hk]
  rfl

/-- C1: each target distance matrix built at construction is the linear
interpolation `D0 + i/(nimages+1) * (Dlast - D0)` of the endpoint distance
matrices, and for `nimages = 1` the single target matrix is exactly the
elementwise average of the two endpoint matrices. -/
theorem claim_C1 (D0 Dlast : ℕ → ℕ → ℚ) (nimages : ℕ) :
    (∀ i, 1 ≤ i → i ≤ nimages →
      (targetDists D0 Dlast nimages)[i - 1]? =
        some (fun a b => D0 a b + (i : ℚ) / ((nimages : ℚ) + 1) * (Dlast a b - D0 a b))) ∧
    targetDists D0 Dlast 1 = [fun a b => (D0 a b + Dlast a b) / 2] := by
  constructor
  · intro i h1 hn
    have hlt : i - 1 < nimages := by omega
    have he : 1 + (i - 1) = i := by omega
    rw [targetDists_getElem? D0 Dlast nimages (i - 1) hlt, he]
  · have h1 : targetDists D0 Dlast 1 =
        [fun a b => D0 a b + ((1 : ℕ) : ℚ) / (((1 : ℕ) : ℚ) + 1) * (Dlast a b - D0 a b)] := rfl
    rw [h1]
    congr 1
    funext a b
    push_cast
    ring

def dmatA : ℕ → ℕ → ℚ := fun a b => (a : ℚ) + (b : ℚ)

def dmatB : ℕ → ℕ → ℚ := fun a b => (a : ℚ) * (b : ℚ)

/-- Evaluation of `claim_C1` at a concrete instance: `nimages = 3`, `i = 2`,
with concrete endpoint distance matrices. -/
theorem claim_C1_witness :
    (targetDists dmatA dmatB 3)[2 - 1]? =
      some (fun a b => dmatA a b + ((2 : ℕ) : ℚ) / (((3 : ℕ) : ℚ) + 1) * (dmatB a b - dmatA a b)) :=
  (claim_C1 dmatA dmatB 3).1 2 (by decide) (by decide)

lemma rsign_pos {x : ℚ} (h : 0 < x) : rsign x = 1 := by
  simp [rsign, h]

lemma rsign_neg {x : ℚ} (h : x < 0) : rsign x = -1 := by
  simp [rsign, h, asymm h]

/-- C4: every displacement component applied by the loop is `step_size` times
the total-force component, clamped: when `step_size * F` exceeds `max_disp`
in absolute value the applied displacement is exactly `max_disp` in magnitude
with the sign of the force component, otherwise it is `step_size * F` itself. -/
theorem claim_C4 (p : RunParams) (F : ℚ) (hstep : 0 < p.step_size)
    (hmax : 0 ≤ p.max_disp) :
    (p.max_disp < |p.step_size * F| →
      clipDisp p F = rsign F * p.max_disp ∧ |clipDisp p F| = p.max_disp) ∧
    (|p.step_size * F| ≤ p.max_disp → clipDisp p F = p.step_size * F) := by
  constructor
  · intro hgt
    have hF : F ≠ 0 := by
      rintro rfl
      rw [mul_zero, abs_zero] at hgt
      exact absurd hgt (not_lt.mpr hmax)
    have hsign : rsign (p.step_size * F) = rsign F := by
      rcases lt_trichotomy F 0 with hf | hf | hf
      · rw [rsign_neg (mul_neg_of_pos_of_neg hstep hf), rsign_neg hf]
      · exact absurd hf hF
      · rw [rsign_pos (mul_pos hstep hf), rsign_pos hf]
    have habs : |rsign F| = 1 := by
      rcases lt_trichotomy F 0 with hf | hf | hf
      · rw [rsign_neg hf]; norm_num
      · exact absurd hf hF
      · rw [rsign_pos hf]; norm_num
    have hc : clipDisp p F = rsign F * p.max_disp := by
      rw [clipDisp, npClip, qabs_eq_abs, if_pos hgt, hsign]
    refine ⟨hc, ?_⟩
    rw [hc, abs_mul, habs, one_mul, abs_of_nonneg hmax]
  · intro hle
    rw [clipDisp, npClip, qabs_eq_abs, if_neg (not_lt.mpr hle)]

abbrev p4 : RunParams :=
  { maxiter := 0
    tol := 0
    gtol := 0
    step_size := 1
    max_disp := 1
    spring_const := 0 }

/-- Evaluation of `claim_C4` at a concrete oversized force component. -/
theorem claim_C4_witness :
    clipDisp p4 3 = rsign 3 * p4.max_disp ∧ |clipDisp p4 3| = p4.max_disp :=
  (claim_C4 p4 3 (by decide) (by decide)).1 (by norm_num [p4])

lemma indicesOf_some_eq_nil {S : Solver} {sps : List ℕ}
    (hnone : ∀ site ∈ (S.structures.getD 0 default).sites, site.species ∉ sps) :
    indicesOf S (some sps) = [] := by
  unfold indicesOf
  rw [List.map_eq_nil_iff, List.filter_eq_nil_iff]
  intro pr hpr
  have h2 : pr.2 ∈ (S.structures.getD 0 default).sites := by
    exact List.getElem?_mem (List.mem_enum_iff_getElem?.mp hpr)
  simp only [decide_eq_true_eq]
  exact hnone pr.2 h2

/-- C5: when the species filter matches no site of the first structure,
`run` fails with the invalid-argument error before any iteration: the
result is the error value, for every choice of iteration parameters. -/
theorem claim_C5 (sq : ℚ → ℚ) (fracOf : Vec → Vec) (S : Solver) (p : RunParams)
    (sps : List ℕ)
    (hnone : ∀ site ∈ (S.structures.getD 0 default).sites, site.species ∉ sps) :
    run sq fracOf S p (some sps) = .error speciesErr := by
  unfold run
  rw [indicesOf_some_eq_nil hnone]
  rfl

abbrev s5 : Structure :=
  { sites := [{ species := 3
                props := 0
                cart := [0, 0, 0]
                frac := [0, 0, 0] }] }

abbrev solver5 : Solver :=
  { nimages := 1
    natoms := 1
    init_coords := fun _ _ => [0, 0, 0]
    translations := fun _ _ _ => [0, 0, 0]
    weights := fun _ _ _ => 1
    target_dists := fun _ _ _ => 0
    structures := [s5, s5, s5] }

/-- Evaluation of `claim_C5`: a filter for species `7` on a structure whose
only site has species `3` makes `run` return the error. -/
theorem claim_C5_witness :
    run id id solver5 p4 (some [7]) = .error speciesErr :=
  claim_C5 id id solver5 p4 [7] (by decide)

lemma sumSq_of_zero_entries {l : List ℚ} (h : ∀ c ∈ l, c = 0) : sumSq l = 0 := by
  induction l with
  | nil => rfl
  | cons a l ih =>
    have ha := h a (List.mem_cons_self _ _)
    have ht := ih (fun c hc => h c (List.mem_cons_of_mem _ hc))
    rw [sumSq, List.map_cons, List.sum_cons, ha]
    rw [sumSq] at ht
    rw [ht]
    norm_num

lemma vsub_self (w : Vec) : vsub w w = List.replicate w.length 0 := by
  induction w with
  | nil => rfl
  | cons a w ih => simp [vsub, List.replicate] at ih ⊢

lemma flatDiff_zero_entries {x : ℕ → ℕ → Vec} {natoms a b : ℕ}
    (h : ∀ i, i < natoms → x a i = x b i) : ∀ c ∈ flatDiff x natoms a b, c = 0 := by
  intro c hc
  rw [flatDiff, List.mem_flatten] at hc
  obtain ⟨l, hl, hcl⟩ := hc
  rw [List.mem_map] at hl
  obtain ⟨i, hi, rfl⟩ := hl
  rw [List.mem_range] at hi
  rw [h i hi, vsub_self] at hcl
  exact List.eq_of_mem_replicate hcl

/-- C7: the tangent construction is partial.  When two consecutive images
coincide, the argument of the first normalization has zero norm and the
guarded tangent computation fails (the unguarded code divides by zero);
when the three normalized vectors all have nonzero norm, the guarded
computation succeeds and agrees with the code's unguarded tangent. -/
theorem claim_C7 (sq : ℚ → ℚ) (x : ℕ → ℕ → Vec) (natoms ni : ℕ) :
    (sq 0 = 0 → (∀ i, i < natoms → x (ni + 1) i = x ni i) →
      tangentSafe sq x natoms ni = none) ∧
    (vnorm sq (flatDiff x natoms (ni + 1) ni) ≠ 0 →
     vnorm sq (flatDiff x natoms ni (ni - 1)) ≠ 0 →
     vnorm sq (tangentRaw sq x natoms ni) ≠ 0 →
      tangentSafe sq x natoms ni = some (tangent sq x natoms ni)) := by
  constructor
  · intro hsq0 hcoin
    have hz : vnorm sq (flatDiff x natoms (ni + 1) ni) = 0 := by
      rw [vnorm, sumSq_of_zero_entries (flatDiff_zero_entries hcoin), hsq0]
    have h1 : unitSafe sq (flatDiff x natoms (ni + 1) ni) = none := by
      rw [unitSafe, if_pos hz]
    rw [tangentSafe, h1]
  · intro h1 h2 h3
    have hu1 : unitSafe sq (flatDiff x natoms (ni + 1) ni) =
        some (getUnitVector sq (flatDiff x natoms (ni + 1) ni)) := by
      rw [unitSafe, if_neg h1]
    have hu2 : unitSafe sq (flatDiff x natoms ni (ni - 1)) =
        some (getUnitVector sq (flatDiff x natoms ni (ni - 1))) := by
      rw [unitSafe, if_neg h2]
    rw [tangentSafe, hu1, hu2]
    show unitSafe sq (tangentRaw sq x natoms ni) = _
    rw [unitSafe, if_neg h3]
    rfl

abbrev x7a : ℕ → ℕ → Vec := fun _ _ => [0, 0, 0]

abbrev x7b : ℕ → ℕ → Vec :=
  fun n _ => if n = 0 then [0, 0, 0] else if n = 1 then [1, 0, 0] else [2, 0, 0]

/-- Evaluation of `claim_C7`: a chain with two coincident consecutive images
makes the guarded tangent fail, and a strictly advancing chain makes it agree
with the unguarded tangent. -/
theorem claim_C7_witness :
    tangentSafe id x7a 1 1 = none ∧
    tangentSafe id x7b 1 1 = some (tangent id x7b 1 1) :=
  ⟨(claim_C7 id x7a 1 1).1 rfl (fun _ _ => rfl),
   (claim_C7 id x7b 1 1).2
     (by norm_num [vnorm, flatDiff, vsub, sumSq, List.range_succ, Function.comp, x7b])
     (by norm_num [vnorm, flatDiff, vsub, sumSq, List.range_succ, Function.comp, x7b])
     (by norm_num [vnorm, flatDiff, vsub, sumSq, tangentRaw, getUnitVector, vadd,
       List.range_succ, Function.comp, x7b])⟩

lemma buildStructures_length (fracOf : Vec → Vec) (S : Solver) (coords : ℕ → ℕ → Vec) :
    (buildStructures fracOf S coords).length = S.nimages + 2 := by
  simp [buildStructures]

lemma buildStructures_head (fracOf : Vec → Vec) (S : Solver) (coords : ℕ → ℕ → Vec) :
    (buildStructures fracOf S coords).getD 0 default = S.structures.getD 0 default := rfl

lemma buildStructures_last (fracOf : Vec → Vec) (S : Solver) (coords : ℕ → ℕ → Vec) :
    (buildStructures fracOf S coords).getD (S.nimages + 1) default =
      S.structures.getD (S.structures.length - 1) default := by
  rw [buildStructures, List.getD_eq_getElem?_getD]
  have hlen : ([S.structures.getD 0 default] ++
      (List.range S.nimages).map (fun ni =>
        ({ sites := List.zipWith (newSite fracOf)
            (S.structures.getD (ni + 1) default).sites
            ((List.range S.natoms).map (fun i => coords (ni + 1) i)) } : Structure))).length =
      S.nimages + 1 := by
    simp
  rw [List.getElem?_append_right (by rw [hlen]), hlen]
  simp

lemma buildStructures_interior (fracOf : Vec → Vec) (S : Solver) (coords : ℕ → ℕ → Vec)
    {ni : ℕ} (hni : ni < S.nimages) :
    (buildStructures fracOf S coords).getD (ni + 1) default =
      { sites := List.zipWith (newSite fracOf)
          (S.structures.getD (ni + 1) default).sites
          ((List.range S.natoms).map (fun i => coords (ni + 1) i)) } := by
  rw [buildStructures, List.getD_eq_getElem?_getD, List.append_assoc]
  rw [show ([S.structures.getD 0 default] : List Structure) ++
      ((List.range S.nimages).map _ ++ [S.structures.getD (S.structures.length - 1) default]) =
      S.structures.getD 0 default ::
      ((List.range S.nimages).map _ ++ [S.structures.getD (S.structures.length - 1) default])
    from rfl]
  rw [List.getElem?_cons_succ, List.getElem?_append, if_pos (by simpa using hni),
    List.getElem?_map, List.getElem?_range hni]
  rfl

/-- The final coordinates and warning flag that `run` wraps into its `.ok`
result. -/
def runResult (sq : ℚ → ℚ) (S : Solver) (indices : List ℕ) (p : RunParams) :
    RState × Bool :=
  runLoop sq S indices p p.maxiter (S.init_coords, List.replicate S.nimages 0)

lemma run_ok_elim {sq : ℚ → ℚ} {fracOf : Vec → Vec} {S : Solver} {p : RunParams}
    {species : Option (List ℕ)} {chain : List Structure} {w : Bool}
    (h : run sq fracOf S p species = .ok (chain, w)) :
    chain = buildStructures fracOf S (runResult sq S (indicesOf S species) p).1.1 ∧
    w = (runResult sq S (indicesOf S species) p).2 := by
  cases species with
  | none =>
    rw [run] at h
    injection h with h'
    injection h' with h1 h2
    exact ⟨h1.symm, h2.symm⟩
  | some sps =>
    rw [run] at h
    by_cases he : (indicesOf S (some sps)).length = 0
    · rw [if_pos he] at h
      exact absurd h (by simp)
    · rw [if_neg he] at h
      injection h with h'
      injection h' with h1 h2
      exact ⟨h1.symm, h2.symm⟩

lemma map_zipWith_newSite {fracOf : Vec → Vec} (g : Site → ℕ)
    (hg : ∀ (s : Site) (c : Vec), g (newSite fracOf s c) = g s) :
    ∀ (as : List Site) (bs : List Vec), as.length ≤ bs.length →
      (List.zipWith (newSite fracOf) as bs).map g = as.map g := by
  intro as
  induction as with
  | nil => intro bs _; simp
  | cons a as ih =>
    intro bs hb
    cases bs with
    | nil => simp at hb
    | cons b bs =>
      simp only [List.zipWith_cons_cons, List.map_cons]
      rw [hg a b, ih bs (by simpa using hb)]

/-- C2: `run` returns a chain of exactly `nimages + 2` configurations whose
first and last entries are the unchanged input endpoints, and each interior
configuration keeps, site by site, the species and property bag of the
corresponding input site. -/
theorem claim_C2 (sq : ℚ → ℚ) (fracOf : Vec → Vec) (S : Solver) (p : RunParams)
    (species : Option (List ℕ)) (chain : List Structure) (w : Bool)
    (hlen : S.structures.length = S.nimages + 2)
    (hnat : ∀ k, k < S.structures.length →
      (S.structures.getD k default).sites.length = S.natoms)
    (hrun : run sq fracOf S p species = .ok (chain, w)) :
    chain.length = S.nimages + 2 ∧
    chain.getD 0 default = S.structures.getD 0 default ∧
    chain.getD (S.nimages + 1) default = S.structures.getD (S.nimages + 1) default ∧
    ∀ ni, ni < S.nimages →
      (chain.getD (ni + 1) default).sites.map Site.species =
        (S.structures.getD (ni + 1) default).sites.map Site.species ∧
      (chain.getD (ni + 1) default).sites.map Site.props =
        (S.structures.getD (ni + 1) default).sites.map Site.props := by
  obtain ⟨hchain, -⟩ := run_ok_elim hrun
  subst hchain
  refine ⟨buildStructures_length _ _ _, buildStructures_head _ _ _, ?_, ?_⟩
  · rw [buildStructures_last]
    congr 1
    omega
  · intro ni hni
    rw [buildStructures_interior _ _ _ hni]
    have hsl : (S.structures.getD (ni + 1) default).sites.length = S.natoms :=
      hnat (ni + 1) (by omega)
    have hrow : ((List.range S.natoms).map
        (fun i => (runResult sq S (indicesOf S species) p).1.1 (ni + 1) i)).length =
        S.natoms := by simp
    constructor
    · exact map_zipWith_newSite Site.species (fun _ _ => rfl) _ _ (by rw [hsl, hrow])
    · exact map_zipWith_newSite Site.props (fun _ _ => rfl) _ _ (by rw [hsl, hrow])

/-- Evaluation of `claim_C2` at a concrete three-image chain (with
`maxiter = 0` the loop body is never entered and the chain is rebuilt from
the initial coordinates). -/
theorem claim_C2_witness :
    ([s5, s5, s5] : List Structure).length = solver5.nimages + 2 ∧
    ([s5, s5, s5] : List Structure).getD 0 default = solver5.structures.getD 0 default ∧
    ([s5, s5, s5] : List Structure).getD (solver5.nimages + 1) default =
      solver5.structures.getD (solver5.nimages + 1) default ∧
    (([s5, s5, s5] : List Structure).getD 1 default).sites.map Site.species =
      (solver5.structures.getD 1 default).sites.map Site.species ∧
    (([s5, s5, s5] : List Structure).getD 1 default).sites.map Site.props =
      (solver5.structures.getD 1 default).sites.map Site.props := by
  have h := claim_C2 id id solver5 p4 none [s5, s5, s5] true (by decide) (by decide) rfl
  exact ⟨h.1, h.2.1, h.2.2.1, h.2.2.2 0 (by decide)⟩

lemma runStep_coords_not_mem {sq : ℚ → ℚ} {S : Solver} {indices : List ℕ}
    {p : RunParams} {st : RState} {r k : ℕ} (hk : k ∉ indices) :
    (runStep sq S indices p st).1 r k = st.1 r k := by
  show (if 1 ≤ r ∧ r ≤ S.nimages ∧ k ∈ indices then _ else st.1 r k) = st.1 r k
  rw [if_neg]
  rintro ⟨-, -, hmem⟩
  exact hk hmem

lemma runLoop_coords_not_mem {sq : ℚ → ℚ} {S : Solver} {indices : List ℕ}
    {p : RunParams} {r k : ℕ} (hk : k ∉ indices) :
    ∀ (n : ℕ) (st : RState), (runLoop sq S indices p n st).1.1 r k = st.1 r k := by
  intro n
  induction n with
  | zero => intro st; rfl
  | succ n ih =>
    intro st
    simp only [runLoop]
    by_cases hc : convTest sq S indices p st = true
    · rw [if_pos hc]
      exact runStep_coords_not_mem hk
    · rw [if_neg hc, ih (runStep sq S indices p st), runStep_coords_not_mem hk]

lemma not_mem_indicesOf {S : Solver} {sps : List ℕ} {k : ℕ}
    (hsp : ∀ s, ((S.structures.getD 0 default).sites)[k]? = some s → s.species ∉ sps) :
    k ∉ indicesOf S (some sps) := by
  intro hk
  rw [indicesOf, List.mem_map] at hk
  obtain ⟨pr, hpr, hfst⟩ := hk
  rw [List.mem_filter] at hpr
  obtain ⟨hen, hdec⟩ := hpr
  rw [decide_eq_true_eq] at hdec
  have hg := List.mem_enum_iff_getElem?.mp hen
  rw [hfst] at hg
  exact hsp pr.2 hg hdec

lemma getD_zipWith_newSite {fracOf : Vec → Vec} :
    ∀ (as : List Site) (bs : List Vec) (k : ℕ), k < as.length → k < bs.length →
      (List.zipWith (newSite fracOf) as bs).getD k default =
        newSite fracOf (as.getD k default) (bs.getD k default) := by
  intro as
  induction as with
  | nil => intro bs k h1 _; simp at h1
  | cons a as ih =>
    intro bs k h1 h2
    cases bs with
    | nil => simp at h2
    | cons b bs =>
      cases k with
      | zero => rfl
      | succ k =>
        simp only [List.zipWith_cons_cons, List.getD_cons_succ]
        exact ih bs k (by simpa using h1) (by simpa using h2)

lemma getD_map_range (g : ℕ → Vec) (n k : ℕ) (hk : k < n) :
    ((List.range n).map g).getD k [] = g k := by
  rw [List.getD_eq_getElem?_getD, List.getElem?_map, List.getElem?_range hk]
  rfl

/-- C3: with a species filter that matches at least one site (so that `run`
succeeds), every site whose species is not in the filter keeps, in every
returned interior configuration, exactly the initial coordinates stored at
construction: only filtered sites are ever displaced. -/
theorem claim_C3 (sq : ℚ → ℚ) (fracOf : Vec → Vec) (S : Solver) (p : RunParams)
    (sps : List ℕ) (chain : List Structure) (w : Bool) (k : ℕ)
    (hrun : run sq fracOf S p (some sps) = .ok (chain, w))
    (hk : k < S.natoms)
    (hsp : ∀ s, ((S.structures.getD 0 default).sites)[k]? = some s → s.species ∉ sps) :
    ∀ ni, ni < S.nimages → k < (S.structures.getD (ni + 1) default).sites.length →
      ((chain.getD (ni + 1) default).sites.getD k default).cart =
        S.init_coords (ni + 1) k := by
  obtain ⟨hchain, -⟩ := run_ok_elim hrun
  subst hchain
  intro ni hni hklen
  rw [buildStructures_interior _ _ _ hni]
  show ((List.zipWith (newSite fracOf) _ _).getD k default).cart = _
  rw [getD_zipWith_newSite _ _ _ hklen (by simpa using hk)]
  show ((List.range S.natoms).map
    (fun i => (runResult sq S (indicesOf S (some sps)) p).1.1 (ni + 1) i)).getD k [] = _
  rw [getD_map_range _ _ _ hk]
  show (runLoop sq S (indicesOf S (some sps)) p p.maxiter
    (S.init_coords, List.replicate S.nimages 0)).1.1 (ni + 1) k = _
  rw [runLoop_coords_not_mem (not_mem_indicesOf hsp)]

abbrev s3b : Structure :=
  { sites := [{ species := 3
                props := 0
                cart := [0, 0, 0]
                frac := [0, 0, 0] },
              { species := 4
                props := 0
                cart := [1, 1, 1]
                frac := [1, 1, 1] }] }

abbrev solver3 : Solver :=
  { nimages := 1
    natoms := 2
    init_coords := fun _ i => if i = 0 then [0, 0, 0] else [1, 1, 1]
    translations := fun _ _ _ => [0, 0, 0]
    weights := fun _ _ _ => 1
    target_dists := fun _ _ _ => 0
    structures := [s3b, s3b, s3b] }

/-- Evaluation of `claim_C3`: with filter `[3]`, the species-4 site of the
returned interior image keeps its initial coordinates. -/
theorem claim_C3_witness :
    ((([s3b, s3b, s3b] : List Structure).getD 1 default).sites.getD 1 default).cart =
      solver3.init_coords 1 1 :=
  claim_C3 id id solver3 p4 [3] [s3b, s3b, s3b] true 1 rfl (by decide)
    (fun s hs => by simp at hs; subst hs; decide) 0 (by decide) (by decide)

lemma runLoop_exhaust (sq : ℚ → ℚ) (S : Solver) (indices : List ℕ) (p : RunParams) :
    ∀ (k : ℕ) (st : RState),
      (∀ n, n < k → convTest sq S indices p ((runStep sq S indices p)^[n] st) = false) →
      runLoop sq S indices p k st = ((runStep sq S indices p)^[k] st, true) := by
  intro k
  induction k with
  | zero => intro st _; rfl
  | succ k ih =>
    intro st h
    have h0 : convTest sq S indices p st = false := by
      simpa using h 0 (Nat.succ_pos k)
    simp only [runLoop]
    rw [h0, if_neg Bool.false_ne_true]
    rw [ih (runStep sq S indices p st) (fun n hn => by
      rw [← Function.iterate_succ_apply]
      exact h (n + 1) (by omega))]
    rw [← Function.iterate_succ_apply]

/-- C6: when the convergence test never holds within `maxiter` iterations,
`run` still succeeds: it returns the warning flag `true` (the non-fatal
convergence warning) together with the full chain of `nimages + 2`
configurations built from the coordinates of the last iteration. -/
theorem claim_C6 (sq : ℚ → ℚ) (fracOf : Vec → Vec) (S : Solver) (p : RunParams)
    (species : Option (List ℕ))
    (hok : species = none ∨ indicesOf S species ≠ [])
    (hnc : ∀ n, n < p.maxiter →
      convTest sq S (indicesOf S species) p (stateAt sq S (indicesOf S species) p n) = false) :
    run sq fracOf S p species =
      .ok (buildStructures fracOf S (stateAt sq S (indicesOf S species) p p.maxiter).1, true) ∧
    (buildStructures fracOf S (stateAt sq S (indicesOf S species) p p.maxiter).1).length =
      S.nimages + 2 := by
  have hloop : runLoop sq S (indicesOf S species) p p.maxiter
      (S.init_coords, List.replicate S.nimages 0) =
      (stateAt sq S (indicesOf S species) p p.maxiter, true) :=
    runLoop_exhaust sq S (indicesOf S species) p p.maxiter _ (fun n hn => hnc n hn)
  refine ⟨?_, buildStructures_length _ _ _⟩
  cases species with
  | none => rw [run, hloop]
  | some sps =>
    rw [run]
    have hne : indicesOf S (some sps) ≠ [] := hok.resolve_left (by simp)
    rw [if_neg (fun hc => hne (List.length_eq_zero.mp hc)), hloop]

abbrev p6 : RunParams :=
  { maxiter := 1
    tol := 0
    gtol := 1
    step_size := 1
    max_disp := 1
    spring_const := 1 }

/-- Evaluation of `claim_C6`: with `tol = 0` the convergence test can never
hold, and after `maxiter = 1` iteration `run` returns the warning flag with
the rebuilt chain of length `nimages + 2`. -/
theorem claim_C6_witness :
    run id id solver5 p6 none =
      .ok (buildStructures id solver5
        (stateAt id solver5 (indicesOf solver5 none) p6 p6.maxiter).1, true) ∧
    (buildStructures id solver5
      (stateAt id solver5 (indicesOf solver5 none) p6 p6.maxiter).1).length =
      solver5.nimages + 2 :=
  claim_C6 id id solver5 p6 none (Or.inl rfl)
    (fun n hn => by
      have hn1 : n < 1 := hn
      have h0 : n = 0 := by omega
      subst h0
      norm_num [convTest, stateAt, getFuncsAndForces, imageFuncForce, getTotalForces,
        indicesOf, qsum, vecSum, vadd, vsub, smul, dot, vnorm, sumSq, qabs, flatDiff,
        tangent, tangentRaw, getUnitVector, chunk3, clipDisp, npClip, rsign,
        List.range_succ, Function.comp, solver5, s5])

/-- A symmetrized structure: the space-group operations and the partition of
sites into orbits of symmetry-equivalent sites.  Modelled from the spec for
the external symmetry collaborator: operations are bijections on sites, and
two ordered site tuples are symmetry-equivalent when some operation maps the
first tuple pointwise onto the second. -/
structure SymmStructure (α : Type) where
  ops : List (α ≃ α)
  eqsites : List (List α)

/-- `spacegroup.are_symmetrically_equivalent`, modelled from the spec as an
ordered pointwise match under some space-group operation. -/
def areSymEq {α : Type} [DecidableEq α] (S : SymmStructure α) (l1 l2 : List α) : Bool :=
  S.ops.any (fun g => decide (l1.map g = l2))

/-- The orbit-classification loop of `MigrationPath.__init__`: for each orbit
in order, if the site is symmetry-equivalent to the orbit representative the
index is (re)assigned; `none` models the attribute never being set. -/
def orbitIndex {α : Type} [DecidableEq α] [Inhabited α] (S : SymmStructure α)
    (site : α) : Option ℕ :=
  S.eqsites.enum.foldl
    (fun acc p => if areSymEq S [site] [p.2.getD 0 default] then some p.1 else acc) none

/-- `MigrationPath`: initial, ending and derived midpoint site, the owning
symmetrized structure and the two orbit indices assigned at construction. -/
structure MigPath (α : Type) where
  symm : SymmStructure α
  isite : α
  esite : α
  msite : α
  iindex : Option ℕ
  eindex : Option ℕ

/-- `MigrationPath.__init__` for a given midpoint construction `mid`
(the `PeriodicSite` midpoint built by the external collaborator). -/
def mkMigPath {α : Type} [DecidableEq α] [Inhabited α] (S : SymmStructure α)
    (mid : α → α → α) (isite esite : α) : MigPath α :=
  { symm := S
    isite := isite
    esite := esite
    msite := mid isite esite
    iindex := orbitIndex S isite
    eindex := orbitIndex S esite }

/-- `MigrationPath.__eq__`: same symmetrized structure and symmetry-equivalent
`(initial, midpoint, ending)` triples. -/
def migEq {α : Type} [DecidableEq α] (p q : MigPath α) : Prop :=
  p.symm = q.symm ∧
  areSymEq p.symm [p.isite, p.msite, p.esite] [q.isite, q.msite, q.esite] = true

/-- `MigrationPath.__hash__`: `iindex + eindex` (undefined when an index was
never assigned). -/
def migHash {α : Type} (p : MigPath α) : Option ℕ :=
  match p.iindex, p.eindex with
  | some a, some b => some (a + b)
  | _, _ => none

lemma areSymEq_singleton_congr {α : Type} [DecidableEq α] {S : SymmStructure α}
    (hinv : ∀ g ∈ S.ops, g.symm ∈ S.ops)
    (hcomp : ∀ g ∈ S.ops, ∀ h ∈ S.ops, g.trans h ∈ S.ops)
    {g : α ≃ α} (hg : g ∈ S.ops) {a b : α} (hab : g a = b) (r : α) :
    areSymEq S [a] [r] = areSymEq S [b] [r] := by
  have hiff : areSymEq S [a] [r] = true ↔ areSymEq S [b] [r] = true := by
    constructor
    · intro h
      rw [areSymEq, List.any_eq_true] at h ⊢
      obtain ⟨k, hk, hd⟩ := h
      rw [decide_eq_true_eq] at hd
      have har : k a = r := by simpa using hd
      refine ⟨g.symm.trans k, hcomp _ (hinv g hg) _ hk, ?_⟩
      rw [decide_eq_true_eq]
      have : k (g.symm b) = r := by rw [← hab, Equiv.symm_apply_apply, har]
      simpa [Equiv.trans_apply] using this
    · intro h
      rw [areSymEq, List.any_eq_true] at h ⊢
      obtain ⟨k, hk, hd⟩ := h
      rw [decide_eq_true_eq] at hd
      have hbr : k b = r := by simpa using hd
      refine ⟨g.trans k, hcomp _ hg _ hk, ?_⟩
      rw [decide_eq_true_eq]
      have : k (g a) = r := by rw [hab, hbr]
      simpa [Equiv.trans_apply] using this
  by_cases hA : areSymEq S [a] [r] = true
  · rw [hA, (hiff.mp hA).symm]
  · have hB : ¬areSymEq S [b] [r] = true := fun hb => hA (hiff.mpr hb)
    rw [Bool.not_eq_true] at hA hB
    rw [hA, hB]

lemma orbitIndex_congr {α : Type} [DecidableEq α] [Inhabited α] {S : SymmStructure α}
    {a b : α} (hEq : ∀ r, areSymEq S [a] [r] = areSymEq S [b] [r]) :
    orbitIndex S a = orbitIndex S b := by
  rw [orbitIndex, orbitIndex]
  have hgen : ∀ (l : List (ℕ × List α)) (acc : Option ℕ),
      l.foldl (fun acc p => if areSymEq S [a] [p.2.getD 0 default]
        then some p.1 else acc) acc =
      l.foldl (fun acc p => if areSymEq S [b] [p.2.getD 0 default]
        then some p.1 else acc) acc := by
    intro l
    induction l with
    | nil => intro acc; rfl
    | cons p l ih =>
      intro acc
      simp only [List.foldl_cons]
      rw [hEq (p.2.getD 0 default)]
      exact ih _
  exact hgen _ none

/-- C8: MigrationPath hashing is consistent with MigrationPath equality.
When the space-group operations are closed under inverse and composition,
two paths over the same symmetrized structure whose (initial, midpoint,
ending) triples are symmetry-equivalent as ordered triples have equal orbit
indices and therefore equal hashes. -/
theorem claim_C8 {α : Type} [DecidableEq α] [Inhabited α]
    (S T : SymmStructure α) (mid : α → α → α) (i1 e1 i2 e2 : α)
    (hinv : ∀ g ∈ S.ops, g.symm ∈ S.ops)
    (hcomp : ∀ g ∈ S.ops, ∀ h ∈ S.ops, g.trans h ∈ S.ops)
    (heq : migEq (mkMigPath S mid i1 e1) (mkMigPath T mid i2 e2)) :
    migHash (mkMigPath S mid i1 e1) = migHash (mkMigPath T mid i2 e2) := by
  obtain ⟨hst, htrip⟩ := heq
  have hST : S = T := hst
  subst hST
  rw [show (mkMigPath S mid i1 e1).symm = S from rfl] at htrip
  rw [areSymEq, List.any_eq_true] at htrip
  obtain ⟨g, hg, hd⟩ := htrip
  rw [decide_eq_true_eq] at hd
  simp only [mkMigPath, List.map_cons, List.map_nil, List.cons.injEq, and_true] at hd
  have hi : g i1 = i2 := hd.1
  have he : g e1 = e2 := hd.2.2
  have h1 : orbitIndex S i1 = orbitIndex S i2 :=
    orbitIndex_congr (fun r => areSymEq_singleton_congr hinv hcomp hg hi r)
  have h2 : orbitIndex S e1 = orbitIndex S e2 :=
    orbitIndex_congr (fun r => areSymEq_singleton_congr hinv hcomp hg he r)
  rw [migHash, migHash]
  simp only [mkMigPath]
  rw [h1, h2]

abbrev symmW : SymmStructure ℕ :=
  { ops := [Equiv.refl ℕ, Equiv.swap 0 1]
    eqsites := [[0, 1]] }

abbrev midW : ℕ → ℕ → ℕ := fun _ _ => 5

/-- Evaluation of `claim_C8`: the hop `0 → 1` and its mirror image `1 → 0`
under the swap symmetry compare equal and hash equal. -/
theorem claim_C8_witness :
    migHash (mkMigPath symmW midW 0 1) = migHash (mkMigPath symmW midW 1 0) :=
  claim_C8 symmW symmW midW 0 1 1 0
    (by
      intro g hg
      simp only [List.mem_cons, List.mem_singleton, List.not_mem_nil, or_false] at hg
      rcases hg with rfl | rfl
      · simp
      · simp [Equiv.symm_swap])
    (by
      intro g hg h hh
      simp only [List.mem_cons, List.mem_singleton, List.not_mem_nil, or_false] at hg hh
      rcases hg with rfl | rfl <;> rcases hh with rfl | rfl
      · simp
      · simp
      · simp
      · simp [Equiv.swap_swap])
    (by
      refine ⟨rfl, ?_⟩
      simp [areSymEq, mkMigPath, midW, Equiv.swap_apply_def])

end NEB
